import Mathlib

/-!
Shallow embedding of the `antsampler` package (classes `Ant` and `AntSampler`
from `antsampler/antsampler.py`).

Modelling conventions:
* coordinates, log-density values and uniform draws are rationals;
* the host random-number generator is modelled by explicit streams of draws
  (`RandGen`) together with cursors into those streams (`RState`): `initU` models
  the vector draws of `np.random.uniform(low, high)`, `stepU` the draws of the
  multivariate-normal step proposal `rand_walker`, and `acceptU` the scalar
  draws of `np.random.uniform()`;
* the transcendental `np.exp` is kept abstract as a field `rexp` of the
  configuration (only its pointwise values matter to the control flow);
* the external `log_probability` callable is an abstract total function on
  points with finite rational values;
* the unbounded `while` loop of `Ant.move` is given explicit fuel (the number
  of proposal attempts allowed); exhausting the fuel, or calling an operation
  on an agent whose position is `None` (a host `TypeError`), yields `none`.
-/

/-- A point of the domain: one rational coordinate per dimension. -/
abbrev Point := List ℚ

/-- Per-dimension window `[position - dx, position + dx]`, the
`local_bounds` array of `Ant.n_marks`. -/
def local_bounds (position : Point) (dx : List ℚ) : List (ℚ × ℚ) :=
  (position.zip dx).map fun pd => (pd.1 - pd.2, pd.1 + pd.2)

/-- Strict containment of a mark in the window: the conjunction over all
dimensions of `local_bounds[:, 0] < m` and `m < local_bounds[:, 1]`
(the two `np.prod` factors combined with `&`). -/
def insideWindow (lb : List (ℚ × ℚ)) (m : Point) : Bool :=
  (lb.zip m).all fun bm => decide (bm.1.1 < bm.2) && decide (bm.2 < bm.1.2)

/-- The window count of `Ant.n_marks`: number of marked points strictly inside
the axis-aligned window of half-width `dx` centred at `position`; the
`len(marked_points) > 0` guard returns `0` for an empty list. -/
def n_marks (dx : List ℚ) (position : Point) (marked_points : List Point) : ℕ :=
  let lb := local_bounds position dx
  if marked_points.length > 0 then
    (marked_points.filter fun m => insideWindow lb m).length
  else 0

/-- The in-bounds test of `Ant.move`:
`np.prod([b[0] < xi < b[1] for xi, b in zip(new_position, bounds)])`. -/
def in_bounds (bounds : List (ℚ × ℚ)) (p : Point) : Bool :=
  (p.zip bounds).all fun xb => decide (xb.2.1 < xb.1) && decide (xb.1 < xb.2.2)

/-- Streams of random draws standing for the host global generator. -/
structure RandGen where
  initU : ℕ → List ℚ
  stepU : ℕ → Point
  acceptU : ℕ → ℚ

/-- Cursors into the three streams of `RandGen`. -/
structure RState where
  ii : ℕ
  si : ℕ
  ui : ℕ
deriving DecidableEq

/-- Configuration shared by all agents: the log-density callable, the domain
bounds, the window half-widths and the host exponential. -/
structure AntCfg where
  logProb : Point → ℚ
  bounds : List (ℚ × ℚ)
  dx : List ℚ
  rexp : ℚ → ℚ

/-- Mutable state of one agent.  `position = none` models the Python value
`None`; `max_logP = none` models `-np.inf`. -/
structure AntState where
  position : Option Point
  max_logP : Option ℚ
deriving DecidableEq

/-- One coordinate of `np.random.uniform(low, high)` realised from a unit
draw `u` of `[0, 1)`. -/
def uniformIn (low high u : ℚ) : ℚ := low + (high - low) * u

/-- A fresh uniform position in the bounds box, from one vector draw. -/
def uniformPoint (bounds : List (ℚ × ℚ)) (us : List ℚ) : Point :=
  (bounds.zip us).map fun bu => uniformIn bu.1.1 bu.1.2 bu.2

/-- The draw performed by `Ant.initialise_ant`, consuming one `initU` draw. -/
def initialise_ant (cfg : AntCfg) (r : RandGen) (rs : RState) : Point × RState :=
  (uniformPoint cfg.bounds (r.initU rs.ii), { rs with ii := rs.ii + 1 })

/-- The tail of `Ant.__init__`: it calls `initialise_ant` (consuming the
draw) and then overwrites `self.position` with `None`, leaving
`max_logP = -np.inf`. -/
def Ant.init (cfg : AntCfg) (r : RandGen) (rs : RState) : AntState × RState :=
  let pr := initialise_ant cfg r rs
  ({ position := none, max_logP := none }, pr.2)

/-- Running-maximum update of `Ant.mark`:
`if logP > self.max_logP: self.max_logP = logP`, with `none` standing for
`-np.inf` (any finite value exceeds it). -/
def newMax (old : Option ℚ) (logP : ℚ) : ℚ :=
  match old with
  | none => logP
  | some q => if q < logP then logP else q

/-- The body of `Ant.mark`: evaluate `logP`, update the running maximum,
then append the position to the marked points exactly when
`1 - exp(logP - max_logP) > uniform()` for the already-updated maximum.
One `acceptU` draw is always consumed.  A `None` position fails. -/
def Ant.mark (cfg : AntCfg) (r : RandGen) (a : AntState) (marked_points : List Point)
    (rs : RState) : Option (AntState × List Point × RState) :=
  match a.position with
  | none => none
  | some pos =>
    let logP := cfg.logProb pos
    let m := newMax a.max_logP logP
    let u := r.acceptU rs.ui
    let mp := if 1 - cfg.rexp (logP - m) > u then marked_points ++ [pos] else marked_points
    some ({ position := some pos, max_logP := some m }, mp, { rs with ui := rs.ui + 1 })

/-- The `while flag` loop of `Ant.move`, with explicit fuel.  Each attempt
consumes one step-proposal draw; an out-of-bounds candidate is rejected with
no acceptance draw consumed; otherwise the candidate is accepted when its
window count is zero (no acceptance draw consumed, by short-circuit of `or`)
or when `old_marks / new_marks` exceeds a fresh uniform draw. -/
def moveLoop (cfg : AntCfg) (r : RandGen) (pos : Point) (old_marks : ℕ)
    (marked_points : List Point) : ℕ → RState → Option (Point × RState)
  | 0, _ => none
  | fuel + 1, rs =>
    let new_position := List.zipWith (fun x s => x + s) pos (r.stepU rs.si)
    let rs1 : RState := { rs with si := rs.si + 1 }
    if in_bounds cfg.bounds new_position then
      let new_marks := n_marks cfg.dx new_position marked_points
      if new_marks = 0 then some (new_position, rs1)
      else
        let u := r.acceptU rs1.ui
        let rs2 : RState := { rs1 with ui := rs1.ui + 1 }
        if (old_marks : ℚ) / (new_marks : ℚ) > u then some (new_position, rs2)
        else moveLoop cfg r pos old_marks marked_points fuel rs2
    else moveLoop cfg r pos old_marks marked_points fuel rs1

/-- The body of `Ant.move`: compute `old_marks` at the current position, run
the proposal loop, and on acceptance replace the position by the accepted
candidate.  A `None` position fails (the host raises a `TypeError` inside
`n_marks`). -/
def Ant.move (cfg : AntCfg) (r : RandGen) (a : AntState) (marked_points : List Point)
    (fuel : ℕ) (rs : RState) : Option (AntState × RState) :=
  match a.position with
  | none => none
  | some pos =>
    let old_marks := n_marks cfg.dx pos marked_points
    match moveLoop cfg r pos old_marks marked_points fuel rs with
    | none => none
    | some pr => some ({ a with position := some pr.1 }, pr.2)

/-- Full sampler configuration (`AntSampler.__init__` arguments other than
`burnin`, which is stored on the state). -/
structure SamplerCfg where
  ant : AntCfg
  mean_free_path : ℚ
  n_steps_exp : ℕ
  n_draws : ℕ
  thinning : ℕ
  n_ants : ℕ

/-- State owned by an `AntSampler` instance. -/
structure SamplerState where
  cfg : SamplerCfg
  burnin : ℕ
  ant_hill : List AntState
  points : List Point
  marked_points : List Point

/-- The only construction-time failure in the source: `scipy`'s
`multivariate_normal` rejects the covariance `identity * mean_free_path`
when it is not positive definite, i.e. when `mean_free_path <= 0`. -/
inductive ConfigError
  | covarianceNotPositiveDefinite
deriving DecidableEq

/-- Build the ant hill: `n_ants` agents.  Each `Ant.__init__` first sets up
`rand_walker` (where `scipy` raises when the covariance
`identity * mean_free_path` is not positive definite), then consumes one
`initU` draw and ends with `position = None`.  The check therefore runs once
per constructed ant: with zero ants it never runs. -/
def mkAnts (cfg : AntCfg) (mfp : ℚ) (r : RandGen) :
    ℕ → RState → Except ConfigError (List AntState × RState)
  | 0, rs => .ok ([], rs)
  | n + 1, rs =>
    if mfp ≤ 0 then .error .covarianceNotPositiveDefinite
    else
      let ar := Ant.init cfg r rs
      match mkAnts cfg mfp r n ar.2 with
      | .error e => .error e
      | .ok rest => .ok (ar.1 :: rest.1, rest.2)

/-- The `AntSampler` constructor.  It performs no validation of its own:
`dx`, the counts and the bounds are stored as given, and the only possible
failure comes from the per-ant step-proposal setup inside `mkAnts`. -/
def AntSampler.mk (cfg : SamplerCfg) (burnin : ℕ) (r : RandGen) (rs : RState) :
    Except ConfigError (SamplerState × RState) :=
  match mkAnts cfg.ant cfg.mean_free_path r cfg.n_ants rs with
  | .error e => .error e
  | .ok hr =>
    .ok ({ cfg := cfg, burnin := burnin, ant_hill := hr.1,
           points := [], marked_points := [] }, hr.2)

/-- Boolean success test for the constructor result. -/
def mkIsOk (x : Except ConfigError (SamplerState × RState)) : Bool :=
  match x with
  | .ok _ => true
  | .error _ => false

/-- Reinitialise every agent in order (`ant.initialise_ant()` for each):
each gets a fresh uniform position from successive `initU` draws, with all
other per-agent state untouched. -/
def initHill (cfg : AntCfg) (r : RandGen) : List AntState → RState → List AntState × RState
  | [], rs => ([], rs)
  | a :: rest, rs =>
    let pr := initialise_ant cfg r rs
    let tl := initHill cfg r rest pr.2
    ({ a with position := some pr.1 } :: tl.1, tl.2)

/-- The body of `AntSampler.initialise`: reinitialise all agents, clear the
sampled points, clear the marked points only when `clear_marks` is set. -/
def AntSampler.initialise (r : RandGen) (s : SamplerState) (rs : RState)
    (clear_marks : Bool) : SamplerState × RState :=
  let hr := initHill s.cfg.ant r s.ant_hill rs
  ({ s with
     ant_hill := hr.1, points := [],
     marked_points := (if clear_marks then [] else s.marked_points) }, hr.2)

/-- One exploration iteration: every agent in order does one `move` then one
`mark` against the shared marked-point list. -/
def exploreStep (cfg : AntCfg) (r : RandGen) (fuel : ℕ) :
    List AntState → List Point → RState → Option (List AntState × List Point × RState)
  | [], mp, rs => some ([], mp, rs)
  | a :: rest, mp, rs => do
    let mv ← Ant.move cfg r a mp fuel rs
    let mk ← Ant.mark cfg r mv.1 mp mv.2
    let tl ← exploreStep cfg r fuel rest mk.2.1 mk.2.2
    some (mk.1 :: tl.1, tl.2.1, tl.2.2)

/-- The exploration phase: `n` iterations of `exploreStep`. -/
def explorePhase (cfg : AntCfg) (r : RandGen) (fuel : ℕ) :
    ℕ → List AntState → List Point → RState → Option (List AntState × List Point × RState)
  | 0, hill, mp, rs => some (hill, mp, rs)
  | n + 1, hill, mp, rs => do
    let st ← exploreStep cfg r fuel hill mp rs
    explorePhase cfg r fuel n st.1 st.2.1 st.2.2

/-- `k` consecutive `move` calls of one agent (no marking). -/
def nMoves (cfg : AntCfg) (r : RandGen) (fuel : ℕ) :
    ℕ → AntState → List Point → RState → Option (AntState × RState)
  | 0, a, _, rs => some (a, rs)
  | k + 1, a, mp, rs => do
    let mv ← Ant.move cfg r a mp fuel rs
    nMoves cfg r fuel k mv.1 mp mv.2

/-- Thermalization: every agent in order performs `thinning` moves. -/
def thermHill (cfg : AntCfg) (r : RandGen) (fuel thinning : ℕ) :
    List AntState → List Point → RState → Option (List AntState × RState)
  | [], _, rs => some ([], rs)
  | a :: rest, mp, rs => do
    let mv ← nMoves cfg r fuel thinning a mp rs
    let tl ← thermHill cfg r fuel thinning rest mp mv.2
    some (mv.1 :: tl.1, tl.2)

/-- One sampling cycle: every agent performs `thinning` moves and its
resulting position is appended to the sampled points. -/
def sampleCycle (cfg : AntCfg) (r : RandGen) (fuel thinning : ℕ) :
    List AntState → List Point → List Point → RState →
    Option (List AntState × List Point × RState)
  | [], _, pts, rs => some ([], pts, rs)
  | a :: rest, mp, pts, rs => do
    let mv ← nMoves cfg r fuel thinning a mp rs
    let p ← mv.1.position
    let tl ← sampleCycle cfg r fuel thinning rest mp (pts ++ [p]) mv.2
    some (mv.1 :: tl.1, tl.2.1, tl.2.2)

/-- The sampling phase: `n` cycles of `sampleCycle`. -/
def samplePhase (cfg : AntCfg) (r : RandGen) (fuel thinning : ℕ) :
    ℕ → List AntState → List Point → List Point → RState →
    Option (List AntState × List Point × RState)
  | 0, hill, _, pts, rs => some (hill, pts, rs)
  | n + 1, hill, mp, pts, rs => do
    let cy ← sampleCycle cfg r fuel thinning hill mp pts rs
    samplePhase cfg r fuel thinning n cy.1 mp cy.2.1 cy.2.2

/-- The body of `AntSampler.run`: optional exploration, then
`self.initialise()` (positions redrawn, sampled points cleared, marks kept),
then thermalization, then sampling; returns the accumulated points. -/
def AntSampler.run (r : RandGen) (fuel : ℕ) (s : SamplerState) (rs : RState)
    (explore : Bool) : Option (SamplerState × RState × List Point) := do
  let e ← if explore then
      explorePhase s.cfg.ant r fuel (s.cfg.n_steps_exp / s.cfg.n_ants)
        s.ant_hill s.marked_points rs
    else some (s.ant_hill, s.marked_points, rs)
  let i := AntSampler.initialise r
      { s with ant_hill := e.1, marked_points := e.2.1 } e.2.2 false
  let t ← thermHill s.cfg.ant r fuel s.cfg.thinning i.1.ant_hill i.1.marked_points i.2
  let p ← samplePhase s.cfg.ant r fuel s.cfg.thinning (s.cfg.n_draws / s.cfg.n_ants)
      t.1 i.1.marked_points i.1.points t.2
  some ({ i.1 with ant_hill := p.1, points := p.2.1 }, p.2.2, p.2.1)

/-! ### Concrete instances used by witnesses -/

/-- The section-8 scenario configuration: unit box, uniform log-density,
`dx = 0.1`, small step scale, 200 exploration steps, 50 draws, 2 ants. -/
def cfg40 : SamplerCfg :=
  { ant := { logProb := fun _ => 0, bounds := [(0, 1), (0, 1)], dx := [1/10, 1/10],
             rexp := fun _ => 1 },
    mean_free_path := 1, n_steps_exp := 200, n_draws := 50, thinning := 1, n_ants := 2 }

/-- A deterministic stand-in for the host generator. -/
def rand0 : RandGen :=
  { initU := fun _ => [1/2, 1/2], stepU := fun _ => [0, 0], acceptU := fun _ => 0 }

/-- Initial stream cursors. -/
def rs0 : RState := ⟨0, 0, 0⟩

/-! ### The window-count query (`Ant.n_marks`) -/

theorem local_bounds_cons (a b : ℚ) (c dx : List ℚ) :
    local_bounds (a :: c) (b :: dx) = (a - b, a + b) :: local_bounds c dx := rfl

theorem insideWindow_cons (p : ℚ × ℚ) (lb : List (ℚ × ℚ)) (x : ℚ) (m : List ℚ) :
    insideWindow (p :: lb) (x :: m) =
      ((decide (p.1 < x) && decide (x < p.2)) && insideWindow lb m) := rfl

theorem insideWindow_iff (c : List ℚ) : ∀ (dx m : List ℚ),
    dx.length = c.length → m.length = c.length →
    (insideWindow (local_bounds c dx) m = true ↔
      ∀ i, i < c.length →
        c.getD i 0 - dx.getD i 0 < m.getD i 0 ∧ m.getD i 0 < c.getD i 0 + dx.getD i 0) := by
  induction c with
  | nil =>
    intro dx m _ _
    constructor
    · intro _ i hi
      exact absurd hi (Nat.not_lt_zero i)
    · intro _
      simp [insideWindow, local_bounds]
  | cons a c ih =>
    intro dx m hdx hm
    match dx, m with
    | [], _ => simp at hdx
    | _ :: _, [] => simp at hm
    | b :: dx, x :: m =>
      simp only [List.length_cons, Nat.add_right_cancel_iff] at hdx hm
      rw [local_bounds_cons, insideWindow_cons]
      simp only [Bool.and_eq_true, decide_eq_true_eq]
      rw [ih dx m hdx hm]
      constructor
      · rintro ⟨⟨h1, h2⟩, hrest⟩ i hi
        cases i with
        | zero => simpa using ⟨h1, h2⟩
        | succ i =>
          simpa using hrest i (Nat.lt_of_succ_lt_succ hi)
      · intro h
        refine ⟨⟨?_, ?_⟩, fun i hi => ?_⟩
        · simpa using (h 0 (Nat.succ_pos _)).1
        · simpa using (h 0 (Nat.succ_pos _)).2
        · simpa using h (i + 1) (Nat.succ_lt_succ hi)

/-- C3: the window count query returns the number of points of the mark list
whose every coordinate lies strictly inside the corresponding interval
`(c i - dx i, c i + dx i)` (a conjunction over all dimensions); it returns `0`
on the empty mark list, and a window strictly containing every point of the
mark list yields exactly its length. -/
theorem n_marks_spec (dx : List ℚ) (c : Point) (M : List Point)
    (hdx : dx.length = c.length) (hM : ∀ m ∈ M, m.length = c.length) :
    n_marks dx c M = (M.filter fun m => decide (∀ i, i < c.length →
        c.getD i 0 - dx.getD i 0 < m.getD i 0 ∧
        m.getD i 0 < c.getD i 0 + dx.getD i 0)).length ∧
    n_marks dx c [] = 0 ∧
    ((∀ m ∈ M, insideWindow (local_bounds c dx) m = true) →
      n_marks dx c M = M.length) := by
  have hfil : M.filter (fun m => insideWindow (local_bounds c dx) m) =
      M.filter (fun m => decide (∀ i, i < c.length →
        c.getD i 0 - dx.getD i 0 < m.getD i 0 ∧
        m.getD i 0 < c.getD i 0 + dx.getD i 0)) := by
    apply List.filter_congr
    intro m hm
    rw [Bool.eq_iff_iff, decide_eq_true_eq]
    exact insideWindow_iff c dx m hdx (hM m hm)
  refine ⟨?_, by simp [n_marks], ?_⟩
  · cases M with
    | nil => simp [n_marks]
    | cons p M =>
      rw [← hfil]
      simp [n_marks]
  · intro hall
    cases M with
    | nil => simp [n_marks]
    | cons p M =>
      have hself : (p :: M).filter (fun m => insideWindow (local_bounds c dx) m) = p :: M :=
        List.filter_eq_self.mpr hall
      simp [n_marks, hself]

/-- Witness for `n_marks_spec` at a concrete window and mark list. -/
theorem n_marks_spec_witness :
    (([(1:ℚ), 1] : List ℚ).length = ([(0:ℚ), 0] : Point).length ∧
      (∀ m ∈ [[(0:ℚ), 0]], m.length = ([(0:ℚ), 0] : Point).length)) ∧
    (n_marks [(1:ℚ), 1] [(0:ℚ), 0] [[(0:ℚ), 0]] =
      ([[(0:ℚ), 0]].filter fun m => decide (∀ i, i < ([(0:ℚ), 0] : Point).length →
        ([(0:ℚ), 0] : Point).getD i 0 - ([(1:ℚ), 1] : List ℚ).getD i 0 < m.getD i 0 ∧
        m.getD i 0 < ([(0:ℚ), 0] : Point).getD i 0 + ([(1:ℚ), 1] : List ℚ).getD i 0)).length ∧
    n_marks [(1:ℚ), 1] [(0:ℚ), 0] [] = 0 ∧
    ((∀ m ∈ [[(0:ℚ), 0]], insideWindow (local_bounds [(0:ℚ), 0] [(1:ℚ), 1]) m = true) →
      n_marks [(1:ℚ), 1] [(0:ℚ), 0] [[(0:ℚ), 0]] = ([[(0:ℚ), 0]] : List Point).length)) :=
  ⟨⟨by decide, by decide⟩,
    n_marks_spec [(1:ℚ), 1] [(0:ℚ), 0] [[(0:ℚ), 0]] (by decide) (by decide)⟩

/-! ### The move operation (`Ant.move`) -/

theorem moveLoop_accept (cfg : AntCfg) (r : RandGen) (pos : Point) (om : ℕ)
    (M : List Point) : ∀ (fuel : ℕ) (rs : RState) (c : Point) (rs1 : RState),
    moveLoop cfg r pos om M fuel rs = some (c, rs1) →
    in_bounds cfg.bounds c = true ∧
    (n_marks cfg.dx c M = 0 ∨
      (0 < n_marks cfg.dx c M ∧
        (om : ℚ) / (n_marks cfg.dx c M : ℚ) > r.acceptU (rs1.ui - 1))) := by
  intro fuel
  induction fuel with
  | zero => intro rs c rs1 h; exact absurd h (by simp [moveLoop])
  | succ fuel ih =>
    intro rs c rs1 h
    rw [moveLoop] at h
    by_cases hin : in_bounds cfg.bounds
        (List.zipWith (fun x s => x + s) pos (r.stepU rs.si)) = true
    · rw [if_pos hin] at h
      by_cases hz : n_marks cfg.dx
          (List.zipWith (fun x s => x + s) pos (r.stepU rs.si)) M = 0
      · rw [if_pos hz] at h
        obtain ⟨hc, hrs⟩ := Prod.mk.injEq .. ▸ Option.some.injEq .. ▸ h
        subst hc
        exact ⟨hin, Or.inl hz⟩
      · rw [if_neg hz] at h
        by_cases hu : (om : ℚ) / (n_marks cfg.dx
            (List.zipWith (fun x s => x + s) pos (r.stepU rs.si)) M : ℚ) >
            r.acceptU rs.ui
        · rw [if_pos hu] at h
          obtain ⟨hc, hrs⟩ := Prod.mk.injEq .. ▸ Option.some.injEq .. ▸ h
          subst hc
          refine ⟨hin, Or.inr ⟨Nat.pos_of_ne_zero hz, ?_⟩⟩
          have hui : rs1.ui = rs.ui + 1 := by rw [← hrs]
          rw [hui]
          simpa using hu
        · rw [if_neg hu] at h
          exact ih _ c rs1 h
    · rw [if_neg hin] at h
      exact ih _ c rs1 h

/-- C1: when the move operation succeeds from position `p`, the reference mark
count is `old_marks = n_marks p`, the accepted candidate is strictly in
bounds and satisfies the acceptance rule (`new_marks = 0`, or
`old_marks / new_marks` exceeds the fresh uniform draw consumed at
acceptance); only the position field of the agent changes; an out-of-bounds
candidate is rejected consuming only its step-proposal draw, no acceptance
draw; and an in-bounds candidate failing the acceptance test is rejected
consuming its acceptance draw, after which the loop redraws. -/
theorem Ant.move_spec (cfg : AntCfg) (r : RandGen) (a : AntState) (M : List Point)
    (fuel : ℕ) (rs : RState) (p : Point) (a1 : AntState) (rs1 : RState)
    (hp : a.position = some p)
    (h : Ant.move cfg r a M fuel rs = some (a1, rs1)) :
    a1.max_logP = a.max_logP ∧
    (∃ c : Point, a1.position = some c ∧ in_bounds cfg.bounds c = true ∧
      (n_marks cfg.dx c M = 0 ∨
        (0 < n_marks cfg.dx c M ∧
          (n_marks cfg.dx p M : ℚ) / (n_marks cfg.dx c M : ℚ) >
            r.acceptU (rs1.ui - 1)))) ∧
    (∀ (q : Point) (om f : ℕ) (rs2 : RState),
      in_bounds cfg.bounds (List.zipWith (fun x s => x + s) q (r.stepU rs2.si)) = false →
      moveLoop cfg r q om M (f + 1) rs2 =
        moveLoop cfg r q om M f { rs2 with si := rs2.si + 1 }) ∧
    (∀ (q : Point) (om f : ℕ) (rs2 : RState),
      in_bounds cfg.bounds (List.zipWith (fun x s => x + s) q (r.stepU rs2.si)) = true →
      n_marks cfg.dx (List.zipWith (fun x s => x + s) q (r.stepU rs2.si)) M ≠ 0 →
      ¬ ((om : ℚ) /
          (n_marks cfg.dx (List.zipWith (fun x s => x + s) q (r.stepU rs2.si)) M : ℚ) >
          r.acceptU rs2.ui) →
      moveLoop cfg r q om M (f + 1) rs2 =
        moveLoop cfg r q om M f { rs2 with si := rs2.si + 1, ui := rs2.ui + 1 }) := by
  simp only [Ant.move, hp] at h
  cases hml : moveLoop cfg r p (n_marks cfg.dx p M) M fuel rs with
  | none =>
    rw [hml] at h
    exact absurd h (by simp)
  | some pr =>
    rw [hml] at h
    simp only [Option.some.injEq, Prod.mk.injEq] at h
    obtain ⟨ha, hrs⟩ := h
    have hacc := moveLoop_accept cfg r p (n_marks cfg.dx p M) M fuel rs pr.1 pr.2
      (by rw [hml])
    refine ⟨by rw [← ha], ⟨pr.1, by rw [← ha], hacc.1, by rw [← hrs]; exact hacc.2⟩, ?_, ?_⟩
    · intro q om f rs2 hout
      rw [moveLoop, if_neg (by rw [hout]; exact Bool.false_ne_true)]
    · intro q om f rs2 hin hnz hnu
      simp only [moveLoop]
      rw [if_pos hin, if_neg hnz, if_neg hnu]

/-- One-dimensional configuration for move witnesses. -/
def cfgW : AntCfg :=
  { logProb := fun _ => 0, bounds := [(0, 10)], dx := [1], rexp := fun _ => 1 }

/-- Witness for `Ant.move_spec` at a concrete accepted move. -/
theorem Ant.move_spec_witness :
    ((⟨some [(5:ℚ)], none⟩ : AntState).position = some [(5:ℚ)] ∧
      Ant.move cfgW rand0 ⟨some [(5:ℚ)], none⟩ [] 1 rs0 =
        some (⟨some [(5:ℚ)], none⟩, ⟨0, 1, 0⟩)) ∧
    ((⟨some [(5:ℚ)], none⟩ : AntState).max_logP =
        (⟨some [(5:ℚ)], none⟩ : AntState).max_logP ∧
      (∃ c : Point, (⟨some [(5:ℚ)], none⟩ : AntState).position = some c ∧
        in_bounds cfgW.bounds c = true ∧
        (n_marks cfgW.dx c [] = 0 ∨
          (0 < n_marks cfgW.dx c [] ∧
            (n_marks cfgW.dx [(5:ℚ)] [] : ℚ) / (n_marks cfgW.dx c [] : ℚ) >
              rand0.acceptU ((⟨0, 1, 0⟩ : RState).ui - 1)))) ∧
      (∀ (q : Point) (om f : ℕ) (rs2 : RState),
        in_bounds cfgW.bounds
          (List.zipWith (fun x s => x + s) q (rand0.stepU rs2.si)) = false →
        moveLoop cfgW rand0 q om [] (f + 1) rs2 =
          moveLoop cfgW rand0 q om [] f { rs2 with si := rs2.si + 1 }) ∧
      (∀ (q : Point) (om f : ℕ) (rs2 : RState),
        in_bounds cfgW.bounds
          (List.zipWith (fun x s => x + s) q (rand0.stepU rs2.si)) = true →
        n_marks cfgW.dx (List.zipWith (fun x s => x + s) q (rand0.stepU rs2.si)) [] ≠ 0 →
        ¬ ((om : ℚ) /
            (n_marks cfgW.dx (List.zipWith (fun x s => x + s) q (rand0.stepU rs2.si)) [] : ℚ) >
            rand0.acceptU rs2.ui) →
        moveLoop cfgW rand0 q om [] (f + 1) rs2 =
          moveLoop cfgW rand0 q om [] f { rs2 with si := rs2.si + 1, ui := rs2.ui + 1 })) :=
  have h : Ant.move cfgW rand0 ⟨some [(5:ℚ)], none⟩ [] 1 rs0 =
      some (⟨some [(5:ℚ)], none⟩, ⟨0, 1, 0⟩) := by
    norm_num [Ant.move, moveLoop, n_marks, in_bounds, local_bounds, insideWindow,
      cfgW, rand0, rs0]
  ⟨⟨rfl, h⟩,
    Ant.move_spec cfgW rand0 ⟨some [(5:ℚ)], none⟩ [] 1 rs0 [(5:ℚ)]
      ⟨some [(5:ℚ)], none⟩ ⟨0, 1, 0⟩ rfl h⟩

/-! ### The mark operation (`Ant.mark`) -/

/-- C2: when the mark operation succeeds at position `p`, the position is
unchanged, the running maximum becomes `max(max_logP, logP)` (set to `logP`
exactly when `logP` exceeds the stored maximum, hence non-decreasing), the
position is appended to the mark list exactly when
`1 - exp(logP - max_logP) > u` for the already-updated maximum and the fresh
uniform draw `u`, and exactly one uniform draw is consumed. -/
theorem Ant.mark_spec (cfg : AntCfg) (r : RandGen) (a : AntState) (M : List Point)
    (rs : RState) (p : Point) (a1 : AntState) (M1 : List Point) (rs1 : RState)
    (hp : a.position = some p)
    (h : Ant.mark cfg r a M rs = some (a1, M1, rs1)) :
    a1.position = a.position ∧
    a1.max_logP = some (newMax a.max_logP (cfg.logProb p)) ∧
    (∀ q, a.max_logP = some q → q < cfg.logProb p →
      a1.max_logP = some (cfg.logProb p)) ∧
    (∀ q, a.max_logP = some q → ¬ q < cfg.logProb p → a1.max_logP = a.max_logP) ∧
    (∀ q, a.max_logP = some q → ∃ q1, a1.max_logP = some q1 ∧ q ≤ q1) ∧
    (M1 = M ++ [p] ↔
      1 - cfg.rexp (cfg.logProb p - newMax a.max_logP (cfg.logProb p)) >
        r.acceptU rs.ui) ∧
    (¬ (1 - cfg.rexp (cfg.logProb p - newMax a.max_logP (cfg.logProb p)) >
        r.acceptU rs.ui) → M1 = M) ∧
    rs1 = { rs with ui := rs.ui + 1 } := by
  simp only [Ant.mark, hp] at h
  by_cases hcond : 1 - cfg.rexp (cfg.logProb p - newMax a.max_logP (cfg.logProb p)) >
      r.acceptU rs.ui
  · rw [if_pos hcond] at h
    simp only [Option.some.injEq, Prod.mk.injEq] at h
    obtain ⟨ha, hM, hrs⟩ := h
    refine ⟨by rw [← ha, hp], by rw [← ha], ?_, ?_, ?_,
      iff_of_true hM.symm hcond, fun hn => absurd hcond hn, hrs.symm⟩
    · intro q hq hlt
      rw [← ha, hq]
      simp [newMax, if_pos hlt]
    · intro q hq hnlt
      rw [← ha, hq]
      simp [newMax, if_neg hnlt]
    · intro q hq
      refine ⟨newMax a.max_logP (cfg.logProb p), by rw [← ha], ?_⟩
      rw [hq]
      dsimp [newMax]
      split
      · exact le_of_lt (by assumption)
      · exact le_refl q
  · rw [if_neg hcond] at h
    simp only [Option.some.injEq, Prod.mk.injEq] at h
    obtain ⟨ha, hM, hrs⟩ := h
    refine ⟨by rw [← ha, hp], by rw [← ha], ?_, ?_, ?_,
      iff_of_false ?_ hcond, fun _ => hM.symm, hrs.symm⟩
    · intro q hq hlt
      rw [← ha, hq]
      simp [newMax, if_pos hlt]
    · intro q hq hnlt
      rw [← ha, hq]
      simp [newMax, if_neg hnlt]
    · intro q hq
      refine ⟨newMax a.max_logP (cfg.logProb p), by rw [← ha], ?_⟩
      rw [hq]
      dsimp [newMax]
      split
      · exact le_of_lt (by assumption)
      · exact le_refl q
    · rw [← hM]
      intro heq
      have := congrArg List.length heq
      simp at this

/-- One-dimensional configuration whose `rexp` makes the mark test succeed. -/
def cfgM : AntCfg :=
  { logProb := fun _ => 0, bounds := [(0, 10)], dx := [1], rexp := fun _ => 0 }

/-- Witness for `Ant.mark_spec` at a concrete marking step. -/
theorem Ant.mark_spec_witness :
    ((⟨some [(5:ℚ)], none⟩ : AntState).position = some [(5:ℚ)] ∧
      Ant.mark cfgM rand0 ⟨some [(5:ℚ)], none⟩ [] rs0 =
        some (⟨some [(5:ℚ)], some 0⟩, [[(5:ℚ)]], ⟨0, 0, 1⟩)) ∧
    ((⟨some [(5:ℚ)], some 0⟩ : AntState).position =
        (⟨some [(5:ℚ)], none⟩ : AntState).position ∧
      (⟨some [(5:ℚ)], some 0⟩ : AntState).max_logP =
        some (newMax (⟨some [(5:ℚ)], none⟩ : AntState).max_logP
          (cfgM.logProb [(5:ℚ)])) ∧
      (∀ q, (⟨some [(5:ℚ)], none⟩ : AntState).max_logP = some q →
        q < cfgM.logProb [(5:ℚ)] →
        (⟨some [(5:ℚ)], some 0⟩ : AntState).max_logP =
          some (cfgM.logProb [(5:ℚ)])) ∧
      (∀ q, (⟨some [(5:ℚ)], none⟩ : AntState).max_logP = some q →
        ¬ q < cfgM.logProb [(5:ℚ)] →
        (⟨some [(5:ℚ)], some 0⟩ : AntState).max_logP =
          (⟨some [(5:ℚ)], none⟩ : AntState).max_logP) ∧
      (∀ q, (⟨some [(5:ℚ)], none⟩ : AntState).max_logP = some q →
        ∃ q1, (⟨some [(5:ℚ)], some 0⟩ : AntState).max_logP = some q1 ∧ q ≤ q1) ∧
      (([[(5:ℚ)]] : List Point) = [] ++ [[(5:ℚ)]] ↔
        1 - cfgM.rexp (cfgM.logProb [(5:ℚ)] -
          newMax (⟨some [(5:ℚ)], none⟩ : AntState).max_logP (cfgM.logProb [(5:ℚ)])) >
          rand0.acceptU rs0.ui) ∧
      (¬ (1 - cfgM.rexp (cfgM.logProb [(5:ℚ)] -
          newMax (⟨some [(5:ℚ)], none⟩ : AntState).max_logP (cfgM.logProb [(5:ℚ)])) >
          rand0.acceptU rs0.ui) → ([[(5:ℚ)]] : List Point) = []) ∧
      (⟨0, 0, 1⟩ : RState) = { rs0 with ui := rs0.ui + 1 }) :=
  have h : Ant.mark cfgM rand0 ⟨some [(5:ℚ)], none⟩ [] rs0 =
      some (⟨some [(5:ℚ)], some 0⟩, [[(5:ℚ)]], ⟨0, 0, 1⟩) := by
    norm_num [Ant.mark, newMax, cfgM, rand0, rs0]
  ⟨⟨rfl, h⟩,
    Ant.mark_spec cfgM rand0 ⟨some [(5:ℚ)], none⟩ [] rs0 [(5:ℚ)]
      ⟨some [(5:ℚ)], some 0⟩ [[(5:ℚ)]] ⟨0, 0, 1⟩ rfl h⟩

/-! ### Construction (`Ant.__init__`, `AntSampler.__init__`) -/

/-- Projection of a construction result onto the runnable state. -/
def mkToOption (x : Except ConfigError (SamplerState × RState)) :
    Option (SamplerState × RState) :=
  match x with
  | .ok sr => some sr
  | .error _ => none

/-- C6 (code bug): immediately after construction the agent's position is
`None`, not a uniformly drawn in-bounds point: the constructor calls
`initialise_ant` and then overwrites the drawn position with `None`. -/
theorem ant_init_position_none :
    (Ant.init cfg40.ant rand0 rs0).1.position = none ∧
    (Ant.init cfg40.ant rand0 rs0).2 = ⟨1, 0, 0⟩ := ⟨rfl, rfl⟩

/-- C4 (code bug): with the section-8 configuration (2 agents, 200
exploration steps, 50 draws, thinning 1 on the unit square) construction
succeeds, but running with exploration on the freshly constructed sampler
fails at the very first move, because every agent's position is still `None`
from the constructor, instead of executing the three phases and returning a
(50, 2)-shaped sample array. -/
theorem run_fresh_sampler_fails :
    mkIsOk (AntSampler.mk cfg40 1000 rand0 rs0) = true ∧
    (mkToOption (AntSampler.mk cfg40 1000 rand0 rs0)).bind
      (fun sr => AntSampler.run rand0 100 sr.1 sr.2 true) = none :=
  ⟨rfl, rfl⟩

/-- A configuration that is invalid according to the spec (negative window
half-width `dx`) but has a valid step scale. -/
def cfg5 : SamplerCfg :=
  { ant := { logProb := fun _ => 0, bounds := [(0, 1)], dx := [-1],
             rexp := fun _ => 1 },
    mean_free_path := 1, n_steps_exp := 100, n_draws := 10, thinning := 1, n_ants := 1 }

/-- A configuration is invalid in the sense of the specification when the
step scale, a window half-width or a count is non-positive, or some bounds
pair has `min >= max`. -/
def badConfig (cfg : SamplerCfg) : Prop :=
  cfg.mean_free_path ≤ 0 ∨ (∃ d ∈ cfg.ant.dx, d ≤ 0) ∨
  cfg.n_steps_exp = 0 ∨ cfg.n_draws = 0 ∨ cfg.thinning = 0 ∨ cfg.n_ants = 0 ∨
  ∃ b ∈ cfg.ant.bounds, b.2 ≤ b.1

/-- C5 counterexample: an invalid configuration (negative `dx`) is accepted
by the constructor without any error. -/
theorem mk_accepts_invalid_dx :
    badConfig cfg5 ∧ mkIsOk (AntSampler.mk cfg5 1000 rand0 rs0) = true := by
  constructor
  · refine Or.inr (Or.inl ⟨-1, ?_, ?_⟩)
    · simp [cfg5]
    · norm_num
  · rfl

theorem mkAnts_ok (cfg : AntCfg) (mfp : ℚ) (r : RandGen)
    (hm : ¬ mfp ≤ 0) : ∀ (n : ℕ) (rs : RState),
    ∃ out, mkAnts cfg mfp r n rs = .ok out := by
  intro n
  induction n with
  | zero => exact fun rs => ⟨([], rs), rfl⟩
  | succ n ih =>
    intro rs
    obtain ⟨out, hout⟩ := ih (Ant.init cfg r rs).2
    refine ⟨((Ant.init cfg r rs).1 :: out.1, out.2), ?_⟩
    simp only [mkAnts, if_neg hm, hout]

/-- C5 amended: construction fails precisely when the step scale
(`mean_free_path`) is non-positive and at least one ant is built — the
positive-definiteness requirement of the step-proposal covariance is checked
inside each `Ant` constructor, so with zero ants even a non-positive step
scale is accepted; non-positive `dx` or counts and bounds with `min >= max`
are accepted silently at construction in every case. -/
theorem mk_error_iff_mean_free_path (cfg : SamplerCfg) (burnin : ℕ)
    (r : RandGen) (rs : RState) :
    (∃ e, AntSampler.mk cfg burnin r rs = .error e) ↔
      (cfg.mean_free_path ≤ 0 ∧ 0 < cfg.n_ants) := by
  constructor
  · intro h
    obtain ⟨e, he⟩ := h
    rw [AntSampler.mk] at he
    by_cases hm : cfg.mean_free_path ≤ 0
    · refine ⟨hm, ?_⟩
      by_contra hn
      have h0 : cfg.n_ants = 0 := by omega
      rw [h0] at he
      exact absurd he (by simp [mkAnts])
    · obtain ⟨out, hout⟩ := mkAnts_ok cfg.ant cfg.mean_free_path r hm cfg.n_ants rs
      rw [hout] at he
      exact absurd he (by simp)
  · rintro ⟨hm, hn⟩
    obtain ⟨k, hk⟩ : ∃ k, cfg.n_ants = k + 1 := ⟨cfg.n_ants - 1, by omega⟩
    refine ⟨.covarianceNotPositiveDefinite, ?_⟩
    rw [AntSampler.mk, hk]
    simp [mkAnts, if_pos hm]

/-! ### Phase lemmas -/

theorem Ant.mark_append (cfg : AntCfg) (r : RandGen) (a : AntState) (M : List Point)
    (rs : RState) (out : AntState × List Point × RState)
    (h : Ant.mark cfg r a M rs = some out) : ∃ tail, out.2.1 = M ++ tail := by
  cases hp : a.position with
  | none => rw [Ant.mark, hp] at h; exact absurd h (by simp)
  | some p =>
    simp only [Ant.mark, hp] at h
    by_cases hc : 1 - cfg.rexp (cfg.logProb p - newMax a.max_logP (cfg.logProb p)) >
        r.acceptU rs.ui
    · rw [if_pos hc] at h
      injection h with h
      exact ⟨[p], by rw [← h]⟩
    · rw [if_neg hc] at h
      injection h with h
      exact ⟨[], by rw [← h]; simp⟩

theorem exploreStep_spec (cfg : AntCfg) (r : RandGen) (fuel : ℕ) :
    ∀ (hill : List AntState) (M : List Point) (rs : RState)
      (out : List AntState × List Point × RState),
      exploreStep cfg r fuel hill M rs = some out →
      (∃ tail, out.2.1 = M ++ tail) ∧ out.1.length = hill.length := by
  intro hill
  induction hill with
  | nil =>
    intro M rs out h
    simp only [exploreStep] at h
    injection h with h
    exact ⟨⟨[], by rw [← h]; simp⟩, by rw [← h]⟩
  | cons a rest ih =>
    intro M rs out h
    simp only [exploreStep, bind, Option.bind_eq_some, Option.some.injEq] at h
    obtain ⟨mv, hmv, mk, hmk, tl, htl, hout⟩ := h
    obtain ⟨t1, ht1⟩ := Ant.mark_append cfg r mv.1 M mv.2 mk hmk
    obtain ⟨⟨t2, ht2⟩, hlen⟩ := ih mk.2.1 mk.2.2 tl htl
    subst hout
    refine ⟨⟨t1 ++ t2, ?_⟩, ?_⟩
    · rw [ht2, ht1, List.append_assoc]
    · simp [hlen]

theorem explorePhase_spec (cfg : AntCfg) (r : RandGen) (fuel : ℕ) :
    ∀ (n : ℕ) (hill : List AntState) (M : List Point) (rs : RState)
      (out : List AntState × List Point × RState),
      explorePhase cfg r fuel n hill M rs = some out →
      (∃ tail, out.2.1 = M ++ tail) ∧ out.1.length = hill.length := by
  intro n
  induction n with
  | zero =>
    intro hill M rs out h
    simp only [explorePhase] at h
    injection h with h
    exact ⟨⟨[], by rw [← h]; simp⟩, by rw [← h]⟩
  | succ n ih =>
    intro hill M rs out h
    simp only [explorePhase, bind, Option.bind_eq_some] at h
    obtain ⟨st, hst, h⟩ := h
    obtain ⟨⟨t1, ht1⟩, hlen1⟩ := exploreStep_spec cfg r fuel hill M rs st hst
    obtain ⟨⟨t2, ht2⟩, hlen2⟩ := ih st.1 st.2.1 st.2.2 out h
    exact ⟨⟨t1 ++ t2, by rw [ht2, ht1, List.append_assoc]⟩, by rw [hlen2, hlen1]⟩

theorem initHill_spec (cfg : AntCfg) (r : RandGen) :
    ∀ (hill : List AntState) (rs : RState),
      (initHill cfg r hill rs).1.length = hill.length ∧
      (∀ i, i < hill.length →
        ((initHill cfg r hill rs).1.getD i ⟨none, none⟩).position =
            some (uniformPoint cfg.bounds (r.initU (rs.ii + i))) ∧
        ((initHill cfg r hill rs).1.getD i ⟨none, none⟩).max_logP =
            (hill.getD i ⟨none, none⟩).max_logP) := by
  intro hill
  induction hill with
  | nil => exact fun rs => ⟨rfl, fun i hi => absurd hi (Nat.not_lt_zero i)⟩
  | cons a rest ih =>
    intro rs
    constructor
    · simp only [initHill, List.length_cons]
      exact congrArg (· + 1) (ih _).1
    · intro i hi
      cases i with
      | zero =>
        simp [initHill, initialise_ant]
      | succ i =>
        have h2 := (ih { rs with ii := rs.ii + 1 }).2 i (Nat.lt_of_succ_lt_succ hi)
        have harith : rs.ii + (i + 1) = rs.ii + 1 + i := by omega
        simp only [initHill, initialise_ant, List.getD_cons_succ, List.length_cons]
        rw [harith]
        exact h2

theorem thermHill_length (cfg : AntCfg) (r : RandGen) (fuel th : ℕ) :
    ∀ (hill : List AntState) (M : List Point) (rs : RState)
      (out : List AntState × RState),
      thermHill cfg r fuel th hill M rs = some out → out.1.length = hill.length := by
  intro hill
  induction hill with
  | nil =>
    intro M rs out h
    simp only [thermHill] at h
    injection h with h
    rw [← h]
  | cons a rest ih =>
    intro M rs out h
    simp only [thermHill, bind, Option.bind_eq_some, Option.some.injEq] at h
    obtain ⟨mv, hmv, tl, htl, hout⟩ := h
    subst hout
    simp [ih M mv.2 tl htl]

theorem sampleCycle_spec (cfg : AntCfg) (r : RandGen) (fuel th : ℕ) :
    ∀ (hill : List AntState) (M pts : List Point) (rs : RState)
      (out : List AntState × List Point × RState),
      sampleCycle cfg r fuel th hill M pts rs = some out →
      out.1.length = hill.length ∧
      ∃ fresh, out.2.1 = pts ++ fresh ∧ fresh.length = hill.length := by
  intro hill
  induction hill with
  | nil =>
    intro M pts rs out h
    simp only [sampleCycle] at h
    injection h with h
    exact ⟨by rw [← h], ⟨[], by rw [← h]; simp, rfl⟩⟩
  | cons a rest ih =>
    intro M pts rs out h
    simp only [sampleCycle, bind, Option.bind_eq_some, Option.some.injEq] at h
    obtain ⟨mv, hmv, p, hp, tl, htl, hout⟩ := h
    obtain ⟨hlen, fresh, hfresh, hfl⟩ := ih M (pts ++ [p]) mv.2 tl htl
    subst hout
    refine ⟨by simp [hlen], ⟨p :: fresh, ?_, by simp [hfl]⟩⟩
    rw [hfresh, List.append_assoc]
    rfl

theorem samplePhase_spec (cfg : AntCfg) (r : RandGen) (fuel th : ℕ) :
    ∀ (n : ℕ) (hill : List AntState) (M pts : List Point) (rs : RState)
      (out : List AntState × List Point × RState),
      samplePhase cfg r fuel th n hill M pts rs = some out →
      out.1.length = hill.length ∧
      out.2.1.length = pts.length + n * hill.length := by
  intro n
  induction n with
  | zero =>
    intro hill M pts rs out h
    simp only [samplePhase] at h
    injection h with h
    exact ⟨by rw [← h], by rw [← h]; simp⟩
  | succ n ih =>
    intro hill M pts rs out h
    simp only [samplePhase, bind, Option.bind_eq_some] at h
    obtain ⟨cy, hcy, h⟩ := h
    obtain ⟨hlen1, fresh, hfresh, hfl⟩ := sampleCycle_spec cfg r fuel th hill M pts rs cy hcy
    obtain ⟨hlen2, hcnt⟩ := ih cy.1 M cy.2.1 cy.2.2 out h
    refine ⟨by rw [hlen2, hlen1], ?_⟩
    rw [hcnt, hfresh, hlen1]
    simp [List.length_append, hfl]
    ring

theorem run_eq_some (r : RandGen) (fuel : ℕ) (s : SamplerState) (rs : RState)
    (explore : Bool) (s1 : SamplerState) (rs1 : RState) (pts : List Point)
    (h : AntSampler.run r fuel s rs explore = some (s1, rs1, pts)) :
    ∃ e t p,
      (if explore then
          explorePhase s.cfg.ant r fuel (s.cfg.n_steps_exp / s.cfg.n_ants)
            s.ant_hill s.marked_points rs
        else some (s.ant_hill, s.marked_points, rs)) = some e ∧
      thermHill s.cfg.ant r fuel s.cfg.thinning
          (initHill s.cfg.ant r e.1 e.2.2).1 e.2.1
          (initHill s.cfg.ant r e.1 e.2.2).2 = some t ∧
      samplePhase s.cfg.ant r fuel s.cfg.thinning (s.cfg.n_draws / s.cfg.n_ants)
          t.1 e.2.1 [] t.2 = some p ∧
      s1 = { cfg := s.cfg, burnin := s.burnin, ant_hill := p.1, points := p.2.1,
             marked_points := e.2.1 } ∧
      rs1 = p.2.2 ∧ pts = p.2.1 := by
  cases explore with
  | false =>
    rw [AntSampler.run] at h
    simp only [Bool.false_eq_true, ↓reduceIte, bind, Option.bind_eq_some,
      AntSampler.initialise] at h
    obtain ⟨e, he, t, ht, p, hp, h⟩ := h
    injection h with h
    refine ⟨e, t, p, ?_, ht, hp, ?_, ?_, ?_⟩
    · simp only [Bool.false_eq_true, ↓reduceIte]
      exact he
    · exact congrArg Prod.fst h.symm
    · exact congrArg (fun z => z.2.1) h.symm
    · exact congrArg (fun z => z.2.2) h.symm
  | true =>
    rw [AntSampler.run] at h
    simp only [Bool.false_eq_true, ↓reduceIte, bind, Option.bind_eq_some,
      AntSampler.initialise] at h
    obtain ⟨e, he, t, ht, p, hp, h⟩ := h
    injection h with h
    refine ⟨e, t, p, ?_, ht, hp, ?_, ?_, ?_⟩
    · simp only [↓reduceIte]
      exact he
    · exact congrArg Prod.fst h.symm
    · exact congrArg (fun z => z.2.1) h.symm
    · exact congrArg (fun z => z.2.2) h.symm

/-- C7: over a successful run the final mark list extends the initial one
(no point is ever removed), each exploration iteration only appends to the
shared mark list (so its length is non-decreasing during exploration), the
mark list is unchanged when exploration is skipped, and the thermalization
and sampling phases leave it exactly as exploration left it. -/
theorem run_marked_points_spec (r : RandGen) (fuel : ℕ) (s : SamplerState)
    (rs : RState) (explore : Bool) (s1 : SamplerState) (rs1 : RState)
    (pts : List Point)
    (h : AntSampler.run r fuel s rs explore = some (s1, rs1, pts)) :
    (∃ tail, s1.marked_points = s.marked_points ++ tail) ∧
    (explore = false → s1.marked_points = s.marked_points) ∧
    (∀ e, explorePhase s.cfg.ant r fuel (s.cfg.n_steps_exp / s.cfg.n_ants)
        s.ant_hill s.marked_points rs = some e → explore = true →
        s1.marked_points = e.2.1) ∧
    (∀ (hill : List AntState) (M : List Point) (rs2 : RState)
      (out : List AntState × List Point × RState),
      exploreStep s.cfg.ant r fuel hill M rs2 = some out →
      ∃ tail, out.2.1 = M ++ tail) := by
  obtain ⟨e, t, p, he, ht, hp, hs1, hrs1, hpts⟩ :=
    run_eq_some r fuel s rs explore s1 rs1 pts h
  have hm1 : s1.marked_points = e.2.1 := by rw [hs1]
  refine ⟨?_, ?_, ?_, ?_⟩
  · cases explore with
    | false =>
      rw [if_neg (by simp)] at he
      injection he with he
      exact ⟨[], by rw [hm1, ← he]; simp⟩
    | true =>
      rw [if_pos rfl] at he
      obtain ⟨⟨tail, htail⟩, _⟩ := explorePhase_spec s.cfg.ant r fuel
        (s.cfg.n_steps_exp / s.cfg.n_ants) s.ant_hill s.marked_points rs e he
      exact ⟨tail, by rw [hm1, htail]⟩
  · intro hex
    subst hex
    rw [if_neg (by simp)] at he
    injection he with he
    rw [hm1, ← he]
  · intro e2 he2 hex
    subst hex
    rw [if_pos rfl] at he
    rw [he2] at he
    injection he with he
    rw [hm1, he]
  · intro hill M rs2 out hstep
    exact (exploreStep_spec s.cfg.ant r fuel hill M rs2 out hstep).1

/-- C10: whenever a run succeeds on a sampler whose hill has `n_ants` agents,
the returned sample list has exactly `(n_draws / n_ants) * n_ants` entries
(floor division): strictly fewer than `n_draws` when `n_ants` does not
divide `n_draws`, and none at all when `n_ants > n_draws`; likewise the
exploration phase runs `n_steps_exp / n_ants` iterations, so
`n_ants > n_steps_exp` makes a run with exploration identical to one
without. -/
theorem run_sample_count (r : RandGen) (fuel : ℕ) (s : SamplerState)
    (rs : RState) (explore : Bool) (s1 : SamplerState) (rs1 : RState)
    (pts : List Point)
    (h : AntSampler.run r fuel s rs explore = some (s1, rs1, pts))
    (hlen : s.ant_hill.length = s.cfg.n_ants) :
    pts.length = s.cfg.n_draws / s.cfg.n_ants * s.cfg.n_ants ∧
    (¬ s.cfg.n_ants ∣ s.cfg.n_draws → pts.length < s.cfg.n_draws) ∧
    (s.cfg.n_draws < s.cfg.n_ants → pts = []) ∧
    (s.cfg.n_steps_exp < s.cfg.n_ants →
      AntSampler.run r fuel s rs true = AntSampler.run r fuel s rs false) := by
  obtain ⟨e, t, p, he, ht, hp, hs1, hrs1, hpts⟩ :=
    run_eq_some r fuel s rs explore s1 rs1 pts h
  have hel : e.1.length = s.ant_hill.length := by
    cases explore with
    | false =>
      rw [if_neg (by simp)] at he
      injection he with he
      rw [← he]
    | true =>
      rw [if_pos rfl] at he
      exact (explorePhase_spec s.cfg.ant r fuel (s.cfg.n_steps_exp / s.cfg.n_ants)
        s.ant_hill s.marked_points rs e he).2
  have htl : t.1.length = s.ant_hill.length := by
    rw [thermHill_length s.cfg.ant r fuel s.cfg.thinning
      (initHill s.cfg.ant r e.1 e.2.2).1 e.2.1 (initHill s.cfg.ant r e.1 e.2.2).2 t ht,
      (initHill_spec s.cfg.ant r e.1 e.2.2).1, hel]
  have hcount : pts.length = s.cfg.n_draws / s.cfg.n_ants * s.cfg.n_ants := by
    have := (samplePhase_spec s.cfg.ant r fuel s.cfg.thinning
      (s.cfg.n_draws / s.cfg.n_ants) t.1 e.2.1 [] t.2 p hp).2
    rw [hpts, this, htl, hlen]
    simp [Nat.mul_comm]
  refine ⟨hcount, ?_, ?_, ?_⟩
  · intro hnd
    rw [hcount]
    refine Nat.lt_of_le_of_ne (Nat.div_mul_le_self _ _) ?_
    intro heq
    refine hnd ⟨s.cfg.n_draws / s.cfg.n_ants, ?_⟩
    rw [Nat.mul_comm]
    exact heq.symm
  · intro hlt
    have : pts.length = 0 := by rw [hcount, Nat.div_eq_of_lt hlt]; simp
    exact List.length_eq_zero.mp this
  · intro hlt
    rw [AntSampler.run, AntSampler.run]
    rw [if_pos rfl, if_neg (by simp), Nat.div_eq_of_lt hlt]
    rw [show explorePhase s.cfg.ant r fuel 0 s.ant_hill s.marked_points rs =
      some (s.ant_hill, s.marked_points, rs) from rfl]

/-- C8: initialise clears the sampled points, empties the mark list exactly
when `clear_marks` is set and leaves it unchanged otherwise, redraws every
agent's position uniformly within the bounds from successive draws while
leaving every agent's running maximum `max_logP` unchanged, and after
clearing, a window-count query anywhere returns 0. -/
theorem initialise_spec (r : RandGen) (s : SamplerState) (rs : RState)
    (clear_marks : Bool) (i : ℕ) (hi : i < s.ant_hill.length) :
    (AntSampler.initialise r s rs clear_marks).1.points = [] ∧
    (clear_marks = true →
      (AntSampler.initialise r s rs clear_marks).1.marked_points = []) ∧
    (clear_marks = false →
      (AntSampler.initialise r s rs clear_marks).1.marked_points = s.marked_points) ∧
    (AntSampler.initialise r s rs clear_marks).1.ant_hill.length = s.ant_hill.length ∧
    ((AntSampler.initialise r s rs clear_marks).1.ant_hill.getD i ⟨none, none⟩).position =
        some (uniformPoint s.cfg.ant.bounds (r.initU (rs.ii + i))) ∧
    ((AntSampler.initialise r s rs clear_marks).1.ant_hill.getD i ⟨none, none⟩).max_logP =
        (s.ant_hill.getD i ⟨none, none⟩).max_logP ∧
    (clear_marks = true → ∀ c : Point,
      n_marks s.cfg.ant.dx c
        (AntSampler.initialise r s rs clear_marks).1.marked_points = 0) := by
  have hih := initHill_spec s.cfg.ant r s.ant_hill rs
  refine ⟨rfl, ?_, ?_, ?_, ?_, ?_, ?_⟩
  · intro hc
    simp [AntSampler.initialise, hc]
  · intro hc
    simp [AntSampler.initialise, hc]
  · simpa [AntSampler.initialise] using hih.1
  · simpa [AntSampler.initialise] using (hih.2 i hi).1
  · simpa [AntSampler.initialise] using (hih.2 i hi).2
  · intro hc c
    simp [AntSampler.initialise, hc, n_marks]

/-- Observable output of a run: everything except the stored burn-in. -/
def stripRun (o : SamplerState × RState × List Point) :
    List AntState × List Point × List Point × RState × List Point :=
  (o.1.ant_hill, o.1.points, o.1.marked_points, o.2.1, o.2.2)

/-- C9: the `burnin` constructor argument is stored but never read: two
samplers identical except for burn-in, driven by the same random streams,
produce identical agent hills, sampled points, mark lists, stream cursors
and returned samples, both under initialise and under run with either
`explore` value (the thermalization phase performs `thinning` moves per
agent, never `burnin` moves). -/
theorem run_burnin_irrelevant (r : RandGen) (fuel : ℕ) (s t : SamplerState)
    (rs : RState) (clear_marks explore : Bool)
    (hcfg : s.cfg = t.cfg) (hhill : s.ant_hill = t.ant_hill)
    (hpts : s.points = t.points) (hmarks : s.marked_points = t.marked_points) :
    ((AntSampler.initialise r s rs clear_marks).1.ant_hill =
        (AntSampler.initialise r t rs clear_marks).1.ant_hill ∧
      (AntSampler.initialise r s rs clear_marks).1.points =
        (AntSampler.initialise r t rs clear_marks).1.points ∧
      (AntSampler.initialise r s rs clear_marks).1.marked_points =
        (AntSampler.initialise r t rs clear_marks).1.marked_points ∧
      (AntSampler.initialise r s rs clear_marks).2 =
        (AntSampler.initialise r t rs clear_marks).2) ∧
    Option.map stripRun (AntSampler.run r fuel s rs explore) =
      Option.map stripRun (AntSampler.run r fuel t rs explore) := by
  constructor
  · refine ⟨?_, rfl, ?_, ?_⟩
    · simp only [AntSampler.initialise]
      rw [hcfg, hhill]
    · simp only [AntSampler.initialise]
      rw [hmarks]
    · simp only [AntSampler.initialise]
      rw [hcfg, hhill]
  · cases explore with
    | true =>
      rw [AntSampler.run, AntSampler.run]
      simp only [AntSampler.initialise, bind, Bool.false_eq_true, ↓reduceIte]
      rw [hcfg, hhill, hmarks]
      generalize explorePhase t.cfg.ant r fuel (t.cfg.n_steps_exp / t.cfg.n_ants)
          t.ant_hill t.marked_points rs = X
      cases X with
      | none => rfl
      | some e =>
        simp only [Option.some_bind]
        generalize thermHill t.cfg.ant r fuel t.cfg.thinning
            (initHill t.cfg.ant r e.1 e.2.2).1 e.2.1
            (initHill t.cfg.ant r e.1 e.2.2).2 = Y
        cases Y with
        | none => rfl
        | some th =>
          simp only [Option.some_bind]
          generalize samplePhase t.cfg.ant r fuel t.cfg.thinning
              (t.cfg.n_draws / t.cfg.n_ants) th.1 e.2.1 [] th.2 = Z
          cases Z with
          | none => rfl
          | some p => rfl
    | false =>
      rw [AntSampler.run, AntSampler.run]
      simp only [AntSampler.initialise, bind, Bool.false_eq_true, ↓reduceIte,
        Option.some_bind]
      rw [hcfg, hhill, hmarks]
      generalize thermHill t.cfg.ant r fuel t.cfg.thinning
          (initHill t.cfg.ant r t.ant_hill rs).1 t.marked_points
          (initHill t.cfg.ant r t.ant_hill rs).2 = Y
      cases Y with
      | none => rfl
      | some th =>
        simp only [Option.some_bind]
        generalize samplePhase t.cfg.ant r fuel t.cfg.thinning
            (t.cfg.n_draws / t.cfg.n_ants) th.1 t.marked_points [] th.2 = Z
        cases Z with
        | none => rfl
        | some p => rfl

/-- A minimal runnable sampler configuration (one agent, one draw, thinning
zero) used by the run witnesses. -/
def cfgS : SamplerCfg :=
  { ant := { logProb := fun _ => 0, bounds := [(0, 1)], dx := [1], rexp := fun _ => 1 },
    mean_free_path := 1, n_steps_exp := 0, n_draws := 1, thinning := 0, n_ants := 1 }

/-- A sampler state with one live agent. -/
def sW : SamplerState :=
  { cfg := cfgS, burnin := 5, ant_hill := [⟨some [0], none⟩], points := [],
    marked_points := [] }

/-- The position drawn by the first `initialise_ant` call of the witnesses. -/
def posW : Point := uniformPoint [(0, 1)] (rand0.initU 0)

/-- The state after a witness run on `sW`. -/
def s1W : SamplerState :=
  { cfg := cfgS, burnin := 5, ant_hill := [⟨some posW, none⟩], points := [posW],
    marked_points := [] }

/-- Witness for `run_marked_points_spec` on a concrete successful run. -/
theorem run_marked_points_spec_witness :
    AntSampler.run rand0 1 sW rs0 false = some (s1W, ⟨1, 0, 0⟩, [posW]) ∧
    ((∃ tail, s1W.marked_points = sW.marked_points ++ tail) ∧
      (false = false → s1W.marked_points = sW.marked_points) ∧
      (∀ e, explorePhase sW.cfg.ant rand0 1 (sW.cfg.n_steps_exp / sW.cfg.n_ants)
          sW.ant_hill sW.marked_points rs0 = some e → false = true →
          s1W.marked_points = e.2.1) ∧
      (∀ (hill : List AntState) (M : List Point) (rs2 : RState)
        (out : List AntState × List Point × RState),
        exploreStep sW.cfg.ant rand0 1 hill M rs2 = some out →
        ∃ tail, out.2.1 = M ++ tail)) :=
  ⟨rfl, run_marked_points_spec rand0 1 sW rs0 false s1W ⟨1, 0, 0⟩ [posW] rfl⟩

/-- Witness for `run_sample_count` on a concrete successful run. -/
theorem run_sample_count_witness :
    (AntSampler.run rand0 1 sW rs0 false = some (s1W, ⟨1, 0, 0⟩, [posW]) ∧
      sW.ant_hill.length = sW.cfg.n_ants) ∧
    (([posW] : List Point).length = sW.cfg.n_draws / sW.cfg.n_ants * sW.cfg.n_ants ∧
      (¬ sW.cfg.n_ants ∣ sW.cfg.n_draws →
        ([posW] : List Point).length < sW.cfg.n_draws) ∧
      (sW.cfg.n_draws < sW.cfg.n_ants → ([posW] : List Point) = []) ∧
      (sW.cfg.n_steps_exp < sW.cfg.n_ants →
        AntSampler.run rand0 1 sW rs0 true = AntSampler.run rand0 1 sW rs0 false)) :=
  ⟨⟨rfl, by decide⟩,
    run_sample_count rand0 1 sW rs0 false s1W ⟨1, 0, 0⟩ [posW] rfl (by decide)⟩

/-- Witness for `initialise_spec` on a concrete state. -/
theorem initialise_spec_witness :
    0 < sW.ant_hill.length ∧
    ((AntSampler.initialise rand0 sW rs0 true).1.points = [] ∧
      (true = true →
        (AntSampler.initialise rand0 sW rs0 true).1.marked_points = []) ∧
      (true = false →
        (AntSampler.initialise rand0 sW rs0 true).1.marked_points = sW.marked_points) ∧
      (AntSampler.initialise rand0 sW rs0 true).1.ant_hill.length = sW.ant_hill.length ∧
      ((AntSampler.initialise rand0 sW rs0 true).1.ant_hill.getD 0 ⟨none, none⟩).position =
          some (uniformPoint sW.cfg.ant.bounds (rand0.initU (rs0.ii + 0))) ∧
      ((AntSampler.initialise rand0 sW rs0 true).1.ant_hill.getD 0 ⟨none, none⟩).max_logP =
          (sW.ant_hill.getD 0 ⟨none, none⟩).max_logP ∧
      (true = true → ∀ c : Point,
        n_marks sW.cfg.ant.dx c
          (AntSampler.initialise rand0 sW rs0 true).1.marked_points = 0)) :=
  ⟨by decide, initialise_spec rand0 sW rs0 true 0 (by decide)⟩

/-- The same sampler state as `sW` with a different stored burn-in. -/
def tW : SamplerState := { sW with burnin := 1000 }

/-- Witness for `run_burnin_irrelevant` on two concrete states differing
only in the stored burn-in. -/
theorem run_burnin_irrelevant_witness :
    (sW.cfg = tW.cfg ∧ sW.ant_hill = tW.ant_hill ∧ sW.points = tW.points ∧
      sW.marked_points = tW.marked_points) ∧
    (((AntSampler.initialise rand0 sW rs0 true).1.ant_hill =
        (AntSampler.initialise rand0 tW rs0 true).1.ant_hill ∧
      (AntSampler.initialise rand0 sW rs0 true).1.points =
        (AntSampler.initialise rand0 tW rs0 true).1.points ∧
      (AntSampler.initialise rand0 sW rs0 true).1.marked_points =
        (AntSampler.initialise rand0 tW rs0 true).1.marked_points ∧
      (AntSampler.initialise rand0 sW rs0 true).2 =
        (AntSampler.initialise rand0 tW rs0 true).2) ∧
    Option.map stripRun (AntSampler.run rand0 1 sW rs0 true) =
      Option.map stripRun (AntSampler.run rand0 1 tW rs0 true)) :=
  ⟨⟨rfl, rfl, rfl, rfl⟩,
    run_burnin_irrelevant rand0 1 sW tW rs0 true true rfl rfl rfl rfl⟩
